import Mathlib

/-!
Verification development for the `best-first-search` repository.

The Python source stores the graph in a `networkx.DiGraph`:
* node storage is an insertion-ordered dictionary from node id to an
  attribute dictionary (the attribute `heuristic` may be absent when the
  node was introduced by `add_edge` rather than `add_node`);
* successor storage (`_succ`) is an insertion-ordered dictionary from node
  id to an insertion-ordered dictionary from successor id to the edge
  attribute dictionary (attribute `weight`); an entry is created for every
  node at the moment the node is first inserted.

We embed this as one insertion-ordered list of `NodeEntry` records, each
holding the node id, the optional heuristic attribute, and the ordered
successor list.  Node identifiers are modelled as strings and numeric
values (heuristics, weights) as integers, matching the JSON representation
used by `save_to_file`/`load_from_file` (`"id": <string>`,
`"heuristic"`/`"weight"`: `<number>`).  Python exceptions (`KeyError`,
`ValueError`, `NetworkXError`) are modelled by `Except Err`, with the
error names taken from the specification's error taxonomy.
-/

namespace BestFirst

/-- Node identifiers (JSON strings in the persisted representation). -/
abbrev NodeId := String

/-- Numeric values: heuristics and edge weights. -/
abbrev Val := Int

/-- Error taxonomy of the specification; each constructor stands for the
Python exception the corresponding operation raises (`KeyError` /
`ValueError` / `NetworkXError` / exceptions escaping `load_from_file`). -/
inductive Err where
  | unknownNode
  | unknownEdge
  | deserialization
deriving DecidableEq, Repr

/-- One node of the `networkx.DiGraph`: its id, its optional `heuristic`
attribute, and its insertion-ordered successor list (successor id paired
with the `weight` attribute). -/
structure NodeEntry where
  nid : NodeId
  heuristic : Option Val
  succ : List (NodeId × Val)
deriving DecidableEq, Repr

/-- The `Graph` class of `graph.py`: the `networkx.DiGraph` contents plus
the `start_node` / `goal_node` fields. -/
structure Graph where
  nodes : List NodeEntry
  start_node : Option NodeId
  goal_node : Option NodeId
deriving DecidableEq, Repr

namespace Graph

/-- `Graph.__init__`: empty digraph, no start, no goal. -/
def empty : Graph := ⟨[], none, none⟩

/-- First entry with the given id (dictionary lookup in `networkx`). -/
def findE (nid : NodeId) : List NodeEntry → Option NodeEntry
  | [] => none
  | e :: rest => if e.nid = nid then some e else findE nid rest

/-- Insert-or-update in an insertion-ordered association list: an existing
key keeps its position and gets the new value, a new key is appended.
This is how a Python dictionary behaves under `d[k] = v`. -/
def upsert (k : NodeId) (v : Val) : List (NodeId × Val) → List (NodeId × Val)
  | [] => [(k, v)]
  | (k', v') :: rest => if k' = k then (k, v) :: rest else (k', v') :: upsert k v rest

/-- `add_node` on the node list: overwrite the heuristic attribute of an
existing entry in place, or append a fresh entry. -/
def setHeur (nid : NodeId) (h : Val) : List NodeEntry → List NodeEntry
  | [] => [⟨nid, some h, []⟩]
  | e :: rest =>
    if e.nid = nid then ⟨nid, some h, e.succ⟩ :: rest else e :: setHeur nid h rest

/-- `networkx` helper: adding an edge first inserts any missing endpoint
as a node with an empty attribute dictionary (no heuristic). -/
def ensure (nid : NodeId) : List NodeEntry → List NodeEntry
  | [] => [⟨nid, none, []⟩]
  | e :: rest => if e.nid = nid then e :: rest else e :: ensure nid rest

/-- Store the edge `u → v` with weight `w` in `u`'s successor dictionary
(`self._succ[u][v] = {weight: w}`); `u` is already present. -/
def setSucc (u v : NodeId) (w : Val) : List NodeEntry → List NodeEntry
  | [] => []
  | e :: rest =>
    if e.nid = u then ⟨e.nid, e.heuristic, upsert v w e.succ⟩ :: rest
    else e :: setSucc u v w rest

/-- `Graph.add_node(node_id, heuristic=0)`:
`self.graph.add_node(node_id, heuristic=heuristic)`. -/
def add_node (g : Graph) (nid : NodeId) (h : Val) : Graph :=
  { g with nodes := setHeur nid h g.nodes }

/-- `Graph.add_edge(from_node, to_node, weight=1)`:
`self.graph.add_edge(from_node, to_node, weight=weight)`.  `networkx`
inserts missing endpoints (source first, then target) and then writes the
weight, overwriting an existing edge. -/
def add_edge (g : Graph) (u v : NodeId) (w : Val) : Graph :=
  { g with nodes := setSucc u v w (ensure v (ensure u g.nodes)) }

/-- The node set `self.graph.nodes`, in insertion order. -/
def nodeIds (g : Graph) : List NodeId := g.nodes.map (·.nid)

/-- `Graph.set_start_node(node_id)`: membership test, `ValueError`
(modelled `Err.unknownNode`) when absent. -/
def set_start_node (g : Graph) (nid : NodeId) : Except Err Graph :=
  if nid ∈ g.nodeIds then .ok { g with start_node := some nid }
  else .error .unknownNode

/-- `Graph.set_goal_node(node_id)`: membership test, `ValueError`
(modelled `Err.unknownNode`) when absent. -/
def set_goal_node (g : Graph) (nid : NodeId) : Except Err Graph :=
  if nid ∈ g.nodeIds then .ok { g with goal_node := some nid }
  else .error .unknownNode

/-- `Graph.get_heuristic(node_id)`: `self.graph.nodes[node_id]['heuristic']`.
Raises `KeyError` (modelled `Err.unknownNode`) when the node is absent and
also when the node exists without a `heuristic` attribute. -/
def get_heuristic (g : Graph) (nid : NodeId) : Except Err Val :=
  match findE nid g.nodes with
  | none => .error .unknownNode
  | some e =>
    match e.heuristic with
    | none => .error .unknownNode
    | some h => .ok h

/-- `Graph.get_neighbors(node_id)`: `list(self.graph.successors(node_id))`.
`networkx` raises `NetworkXError` (modelled `Err.unknownNode`) when the
node is not in the digraph. -/
def get_neighbors (g : Graph) (nid : NodeId) : Except Err (List NodeId) :=
  match findE nid g.nodes with
  | none => .error .unknownNode
  | some e => .ok (e.succ.map (·.1))

/-- `Graph.get_edge_weight(from, to)`: `self.graph[from][to]['weight']`.
Raises `KeyError` (modelled `Err.unknownEdge`) when either lookup fails. -/
def get_edge_weight (g : Graph) (u v : NodeId) : Except Err Val :=
  match findE u g.nodes with
  | none => .error .unknownEdge
  | some e =>
    match e.succ.lookup v with
    | none => .error .unknownEdge
    | some w => .ok w

/-- The stored heuristic attribute of a node, if any (direct view of the
attribute dictionary, used to state properties). -/
def heurOf (g : Graph) (nid : NodeId) : Option Val :=
  (findE nid g.nodes).bind (·.heuristic)

/-- The directed edge `u → v` exists in the digraph. -/
def hasEdge (g : Graph) (u v : NodeId) : Prop :=
  ∃ w, g.get_edge_weight u v = .ok w

end Graph

/-!
## Persisted representation

`save_to_file` / `load_from_file` exchange graphs through `json.dump` /
`json.load`.  We embed the parsed JSON value (the result of `json.load`,
an object/array/number/string/null tree; numbers restricted to integers
as in the shipped example graphs) and model the two methods as functions
to/from this tree; the file I/O and the textual encoding, which Python's
`json` round-trips exactly, stay outside the model.
-/

/-- Parsed JSON value.  `obj` models a parsed Python dictionary, so its
field names are distinct. -/
inductive JVal where
  | null
  | str (s : String)
  | num (n : Int)
  | arr (elems : List JVal)
  | obj (fields : List (String × JVal))
deriving Repr

/-- Dictionary access `d[k]` on a parsed JSON value: `none` stands for the
`KeyError` on a missing key and the `TypeError` on a non-dictionary. -/
def jField (j : JVal) (k : String) : Option JVal :=
  match j with
  | .obj fields => fields.lookup k
  | _ => none

/-- Python truthiness of a parsed JSON value, as tested by
`if graph_data.get('start_node'):` — `None`, `""`, `0`, `[]` and `{}` are
falsy. -/
def jTruthy : JVal → Bool
  | .null => false
  | .str s => s ≠ ""
  | .num n => n ≠ 0
  | .arr elems => !elems.isEmpty
  | .obj fields => !fields.isEmpty

namespace Graph

/-- The `'nodes'` array of `save_to_file`: one object per node in node
insertion order; reading a missing `heuristic` attribute raises
`KeyError` (modelled `Err.unknownNode`). -/
def serializeNodes : List NodeEntry → Except Err (List JVal)
  | [] => .ok []
  | e :: rest =>
    match e.heuristic with
    | none => .error .unknownNode
    | some h =>
      match serializeNodes rest with
      | .error er => .error er
      | .ok js => .ok (.obj [("id", .str e.nid), ("heuristic", .num h)] :: js)

/-- The `'edges'` array of `save_to_file`: `self.graph.edges` iterates the
successor structure per node in node insertion order, then per edge in
edge insertion order. -/
def serializeEdges (entries : List NodeEntry) : List JVal :=
  entries.flatMap fun e =>
    e.succ.map fun p =>
      .obj [("from", .str e.nid), ("to", .str p.1), ("weight", .num p.2)]

/-- Statement helper: the JSON object `save_to_file` writes for one node
(the heuristic attribute is present on every node the lemmas apply to;
`getD 0` only totalizes the view). -/
def nodeJson (e : NodeEntry) : JVal :=
  .obj [("id", .str e.nid), ("heuristic", .num (e.heuristic.getD 0))]

/-- Statement helper: the JSON object `save_to_file` writes for one edge
`u → p.1` with weight `p.2`. -/
def edgeJson (u : NodeId) (p : NodeId × Val) : JVal :=
  .obj [("from", .str u), ("to", .str p.1), ("weight", .num p.2)]

/-- Statement helper: a node entry as `load_from_file` first rebuilds it —
same id and heuristic, successors not yet loaded. -/
def stripE (e : NodeEntry) : NodeEntry := ⟨e.nid, e.heuristic, []⟩

/-- `Graph.save_to_file` up to file I/O: build the `graph_data`
dictionary.  Fails (an escaping `KeyError`) iff some node lacks its
`heuristic` attribute. -/
def serialize (g : Graph) : Except Err JVal :=
  match serializeNodes g.nodes with
  | .error er => .error er
  | .ok nodeObjs =>
    .ok (.obj
      [("nodes", .arr nodeObjs),
       ("edges", .arr (serializeEdges g.nodes)),
       ("start_node", match g.start_node with | none => .null | some s => .str s),
       ("goal_node", match g.goal_node with | none => .null | some t => .str t)])

/-- The node-loading loop of `load_from_file`: `add_node(d['id'],
d['heuristic'])` for each element.  A non-object element or a missing
field raises (modelled `Err.deserialization`). -/
def loadNodes (g : Graph) : List JVal → Except Err Graph
  | [] => .ok g
  | j :: rest =>
    match jField j "id", jField j "heuristic" with
    | some (.str nid), some (.num h) => loadNodes (g.add_node nid h) rest
    | _, _ => .error .deserialization

/-- The edge-loading loop of `load_from_file`: `add_edge(d['from'],
d['to'], d['weight'])` for each element. -/
def loadEdges (g : Graph) : List JVal → Except Err Graph
  | [] => .ok g
  | j :: rest =>
    match jField j "from", jField j "to", jField j "weight" with
    | some (.str u), some (.str v), some (.num w) => loadEdges (g.add_edge u v w) rest
    | _, _, _ => .error .deserialization

/-- The `if graph_data.get('start_node'):` step: a missing or falsy value
skips the assignment; a truthy value is passed to the setter (a truthy
non-string can never be a member of the string node set, hence the
setter's `ValueError`). -/
def loadStart (g : Graph) (j : JVal) : Except Err Graph :=
  if jTruthy ((jField j "start_node").getD .null) then
    match (jField j "start_node").getD .null with
    | .str s => g.set_start_node s
    | _ => .error .unknownNode
  else .ok g

/-- The `if graph_data.get('goal_node'):` step, as for the start node. -/
def loadGoal (g : Graph) (j : JVal) : Except Err Graph :=
  if jTruthy ((jField j "goal_node").getD .null) then
    match (jField j "goal_node").getD .null with
    | .str t => g.set_goal_node t
    | _ => .error .unknownNode
  else .ok g

/-- The array read `graph_data[k]`: raises (`KeyError` on a missing key,
`TypeError` on a non-array value — both modelled `Err.deserialization`)
unless the key holds an array. -/
def loadArr (j : JVal) (k : String) : Except Err (List JVal) :=
  match jField j k with
  | some (.arr xs) => .ok xs
  | _ => .error .deserialization

/-- `Graph.load_from_file` after `json.load`: read `graph_data['nodes']`
and load the nodes, read `graph_data['edges']` and load the edges, then
conditionally set start and goal — each step propagating the first
exception raised, exactly in the order the Python body runs. -/
def load_from_file (j : JVal) : Except Err Graph :=
  (loadArr j "nodes").bind fun nodeList =>
    (loadNodes Graph.empty nodeList).bind fun g1 =>
      (loadArr j "edges").bind fun edgeList =>
        (loadEdges g1 edgeList).bind fun g2 =>
          (loadStart g2 j).bind fun g3 => loadGoal g3 j

end Graph

/-!
## Search engine

The repository's `algorithms.py` (class `BestFirstSearch`, consumed by
`main.py` as `path, expanded_nodes, steps = bfs.search()`) is not among
the source files; the engine below is modelled from the specification's
algorithm description (§4.2).
-/

/-- One frame of the step trace: the node being expanded, the visited set
so far, and the best path prefix reaching the current node. -/
structure SearchStep where
  current : NodeId
  visited : List NodeId
  path : List NodeId
deriving DecidableEq, Repr

/-- The triple returned by `search()`: solution path (or `none`),
expansion order, step trace. -/
structure SearchResult where
  path : Option (List NodeId)
  expanded : List NodeId
  steps : List SearchStep
deriving DecidableEq, Repr

/-- Modelled from the spec: the frontier is a priority structure keyed by
the candidate's heuristic value, ties broken by insertion counter.  An
entry is `(heuristic, insertion counter, node)`; `popMin` removes the
entry minimal in the lexicographic `(heuristic, counter)` order. -/
def popMin : List (Val × Nat × NodeId) → Option ((Val × Nat × NodeId) × List (Val × Nat × NodeId))
  | [] => none
  | x :: xs =>
    match popMin xs with
    | none => some (x, [])
    | some (m, rest) =>
      if m.1 < x.1 ∨ (m.1 = x.1 ∧ m.2.1 < x.2.1) then some (m, x :: rest)
      else some (x, xs)

/-- Modelled from the spec: reconstruct the path to `cur` by walking
predecessor links back to `start`, producing the path in reverse
(fuelled; predecessor chains are acyclic and bounded by the node count). -/
def walkPred (pred : List (NodeId × NodeId)) (start : NodeId) : NodeId → Nat → List NodeId
  | cur, 0 => [cur]
  | cur, fuel + 1 =>
    if cur = start then [cur]
    else
      match pred.lookup cur with
      | none => [cur]
      | some p => cur :: walkPred pred start p fuel

/-- Modelled from the spec: step 3g — for each neighbor not yet visited
and not already in the predecessor map, record `pred[neighbor] = cur` and
push the neighbor with its node heuristic and the next insertion
counter.  A missing heuristic surfaces as the graph's lookup error. -/
def pushFrontier (g : Graph) (cur : NodeId) (visited : List NodeId) :
    List NodeId → List (NodeId × NodeId) → List (Val × Nat × NodeId) → Nat →
    Except Err (List (NodeId × NodeId) × List (Val × Nat × NodeId) × Nat)
  | [], pred, fr, cnt => .ok (pred, fr, cnt)
  | n :: ns, pred, fr, cnt =>
    if n ∈ visited then pushFrontier g cur visited ns pred fr cnt
    else if (pred.lookup n).isSome then pushFrontier g cur visited ns pred fr cnt
    else
      match g.get_heuristic n with
      | .error er => .error er
      | .ok h => pushFrontier g cur visited ns (pred ++ [(n, cur)]) (fr ++ [(h, cnt, n)]) (cnt + 1)

/-- Modelled from the spec: the main expansion loop (§4.2 step 3).  The
fuel bounds the number of iterations; since every push is guarded by the
predecessor map, `|nodes| + 1` iterations always suffice.  `none` stands
for an error escaping the engine (missing heuristic during push). -/
def searchLoop (g : Graph) (start goal : NodeId) :
    Nat → List (Val × Nat × NodeId) → List NodeId → List (NodeId × NodeId) →
    List NodeId → List SearchStep → Nat → Option SearchResult
  | 0, _, _, _, _, _, _ => none
  | fuel + 1, fr, visited, pred, expanded, steps, cnt =>
    match popMin fr with
    | none => some ⟨none, expanded, steps⟩
    | some ((_, _, cur), fr') =>
      if cur ∈ visited then searchLoop g start goal fuel fr' visited pred expanded steps cnt
      else
        let visited' := visited ++ [cur]
        let expanded' := expanded ++ [cur]
        let p := (walkPred pred start cur (g.nodes.length + 1)).reverse
        let steps' := steps ++ [⟨cur, visited', p⟩]
        if cur = goal then some ⟨some p, expanded', steps'⟩
        else
          match g.get_neighbors cur with
          | .error _ => none
          | .ok ns =>
            match pushFrontier g cur visited' ns pred fr' cnt with
            | .error _ => none
            | .ok (pred', fr'', cnt') =>
              searchLoop g start goal fuel fr'' visited' pred' expanded' steps' cnt'

/-- Modelled from the spec: `BestFirstSearch(graph).search()` — requires
start and goal to be set (`SearchNotConfiguredError` otherwise, modelled
`none`), seeds the frontier with the start node keyed by its heuristic,
and runs the expansion loop. -/
def search (g : Graph) : Option SearchResult :=
  match g.start_node, g.goal_node with
  | some s, some t =>
    match g.get_heuristic s with
    | .error _ => none
    | .ok h => searchLoop g s t (g.nodes.length + 1) [(h, 0, s)] [] [] [] [] 1
  | _, _ => none

/-- The concrete scenario graph of the specification: nodes A(h=5),
B(h=3), C(h=0); edges A→B(1), A→C(4), B→C(2); start A, goal C. -/
def exampleGraph : Graph :=
  ⟨[⟨"A", some 5, [("B", 1), ("C", 4)]⟩,
    ⟨"B", some 3, [("C", 2)]⟩,
    ⟨"C", some 0, []⟩], some "A", some "C"⟩

/-!
## Well-formedness and the designation invariant
-/

/-- Structural well-formedness mirrored from the dictionary-backed store:
node ids are distinct and each successor list has distinct keys.  Every
graph reachable through the class interface satisfies it. -/
def WF (g : Graph) : Prop :=
  (g.nodes.map (·.nid)).Nodup ∧ ∀ e ∈ g.nodes, (e.succ.map (·.1)).Nodup

/-- The designation invariant: a set start or goal designation always
names a node of the graph. -/
def Inv (g : Graph) : Prop :=
  (∀ s, g.start_node = some s → s ∈ g.nodeIds) ∧
  (∀ t, g.goal_node = some t → t ∈ g.nodeIds)

/-!
## Association-list lemmas
-/

namespace Graph

theorem ok_bind {α β : Type} (a : α) (f : α → Except Err β) :
    (Except.ok a : Except Err α).bind f = f a := rfl

theorem error_bind {α β : Type} (er : Err) (f : α → Except Err β) :
    (Except.error er : Except Err α).bind f = .error er := rfl

theorem findE_eq_none {nid : NodeId} {l : List NodeEntry} :
    findE nid l = none ↔ nid ∉ l.map (·.nid) := by
  induction l with
  | nil => simp [findE]
  | cons e rest ih =>
    simp only [findE, List.map_cons, List.mem_cons]
    split
    · simp_all
    · simp_all [eq_comm]

theorem findE_isSome {nid : NodeId} {l : List NodeEntry} :
    (∃ e, findE nid l = some e) ↔ nid ∈ l.map (·.nid) := by
  constructor
  · rintro ⟨e, he⟩
    by_contra hmem
    rw [findE_eq_none.mpr hmem] at he
    cases he
  · intro hmem
    cases h : findE nid l with
    | none => exact absurd hmem (findE_eq_none.mp h)
    | some e => exact ⟨e, rfl⟩

theorem findE_some_nid {nid : NodeId} {l : List NodeEntry} {e : NodeEntry}
    (h : findE nid l = some e) : e.nid = nid := by
  induction l with
  | nil => simp [findE] at h
  | cons e0 rest ih =>
    simp only [findE] at h
    split at h
    · cases h; assumption
    · exact ih h

theorem findE_mem {nid : NodeId} {l : List NodeEntry} {e : NodeEntry}
    (h : findE nid l = some e) : e ∈ l := by
  induction l with
  | nil => simp [findE] at h
  | cons e0 rest ih =>
    simp only [findE] at h
    split at h
    · cases h; exact List.mem_cons_self _ _
    · exact List.mem_cons_of_mem _ (ih h)

theorem map_nid_setHeur (nid : NodeId) (h : Val) (l : List NodeEntry) :
    (setHeur nid h l).map (·.nid) =
      if nid ∈ l.map (·.nid) then l.map (·.nid) else l.map (·.nid) ++ [nid] := by
  induction l with
  | nil => simp [setHeur]
  | cons e rest ih =>
    simp only [setHeur, List.map_cons, List.mem_cons]
    split
    · rename_i he
      simp [he]
    · rename_i he
      have : ¬ nid = e.nid := fun hc => he hc.symm
      simp only [List.map_cons, ih, this, false_or]
      split <;> simp

theorem findE_setHeur_self (nid : NodeId) (h : Val) (l : List NodeEntry) :
    findE nid (setHeur nid h l) =
      some ⟨nid, some h, (((findE nid l).map (·.succ)).getD [])⟩ := by
  induction l with
  | nil => simp [setHeur, findE]
  | cons e rest ih =>
    simp only [setHeur, findE]
    split
    · rename_i he
      simp [findE, he]
    · rename_i he
      simp only [findE, he, if_neg]
      exact ih

theorem findE_setHeur_ne {k nid : NodeId} (hne : k ≠ nid) (h : Val) (l : List NodeEntry) :
    findE k (setHeur nid h l) = findE k l := by
  induction l with
  | nil => simp [setHeur, findE, Ne.symm hne]
  | cons e rest ih =>
    simp only [setHeur, findE]
    split
    · rename_i he
      simp [findE, he, hne, Ne.symm hne]
    · simp only [findE]
      split
      · rfl
      · exact ih

theorem map_nid_ensure (nid : NodeId) (l : List NodeEntry) :
    (ensure nid l).map (·.nid) =
      if nid ∈ l.map (·.nid) then l.map (·.nid) else l.map (·.nid) ++ [nid] := by
  induction l with
  | nil => simp [ensure]
  | cons e rest ih =>
    simp only [ensure, List.map_cons, List.mem_cons]
    split
    · rename_i he
      simp [he]
    · rename_i he
      have : ¬ nid = e.nid := fun hc => he hc.symm
      simp only [List.map_cons, ih, this, false_or]
      split <;> simp

theorem findE_ensure_self (nid : NodeId) (l : List NodeEntry) :
    findE nid (ensure nid l) = some ((findE nid l).getD ⟨nid, none, []⟩) := by
  induction l with
  | nil => simp [ensure, findE]
  | cons e rest ih =>
    simp only [ensure, findE]
    split
    · rename_i he
      simp [findE, he]
    · rename_i he
      simp only [findE, he, if_neg]
      exact ih

theorem findE_ensure_ne {k nid : NodeId} (hne : k ≠ nid) (l : List NodeEntry) :
    findE k (ensure nid l) = findE k l := by
  induction l with
  | nil => simp [ensure, findE, Ne.symm hne]
  | cons e rest ih =>
    simp only [ensure, findE]
    split
    · rename_i he
      simp [findE, he, hne, Ne.symm hne]
    · simp only [findE]
      split
      · rfl
      · exact ih

theorem map_nid_setSucc (u v : NodeId) (w : Val) (l : List NodeEntry) :
    (setSucc u v w l).map (·.nid) = l.map (·.nid) := by
  induction l with
  | nil => simp [setSucc]
  | cons e rest ih =>
    simp only [setSucc]
    split
    · rename_i he
      simp [he]
    · simp [ih]

theorem findE_setSucc_self (u v : NodeId) (w : Val) (l : List NodeEntry) :
    findE u (setSucc u v w l) =
      (findE u l).map (fun e => ⟨e.nid, e.heuristic, upsert v w e.succ⟩) := by
  induction l with
  | nil => simp [setSucc, findE]
  | cons e rest ih =>
    simp only [setSucc, findE]
    split
    · rename_i he
      simp [findE, he]
    · rename_i he
      simp only [findE, he, if_neg]
      exact ih

theorem findE_setSucc_ne {k u : NodeId} (hne : k ≠ u) (v : NodeId) (w : Val) (l : List NodeEntry) :
    findE k (setSucc u v w l) = findE k l := by
  induction l with
  | nil => simp [setSucc, findE]
  | cons e rest ih =>
    simp only [setSucc, findE]
    split
    · rename_i he
      simp [findE, he, hne, Ne.symm hne]
    · simp only [findE]
      split
      · rfl
      · exact ih

theorem lookup_upsert_self (k : NodeId) (v : Val) (l : List (NodeId × Val)) :
    (upsert k v l).lookup k = some v := by
  induction l with
  | nil => simp [upsert, List.lookup]
  | cons p rest ih =>
    obtain ⟨k', v'⟩ := p
    simp only [upsert]
    split
    · simp [List.lookup]
    · rename_i hk
      simp only [List.lookup, ih]
      have : (k == k') = false := by
        simp only [beq_eq_false_iff_ne, ne_eq]
        exact fun hc => hk hc.symm
      simp [this]

theorem lookup_upsert_ne {k k' : NodeId} (hne : k' ≠ k) (v : Val) (l : List (NodeId × Val)) :
    (upsert k v l).lookup k' = l.lookup k' := by
  induction l with
  | nil =>
    have hb : (k' == k) = false := beq_eq_false_iff_ne.mpr hne
    simp [upsert, List.lookup, hb]
  | cons p rest ih =>
    obtain ⟨k0, v0⟩ := p
    simp only [upsert]
    split
    · rename_i hk
      subst hk
      have hb : (k' == k0) = false := beq_eq_false_iff_ne.mpr hne
      simp [List.lookup, hb]
    · simp only [List.lookup, ih]

theorem map_fst_upsert (k : NodeId) (v : Val) (l : List (NodeId × Val)) :
    (upsert k v l).map (·.1) =
      if k ∈ l.map (·.1) then l.map (·.1) else l.map (·.1) ++ [k] := by
  induction l with
  | nil => simp [upsert]
  | cons p rest ih =>
    obtain ⟨k0, v0⟩ := p
    simp only [upsert, List.map_cons, List.mem_cons]
    split
    · rename_i hk
      simp [hk]
    · rename_i hk
      have : ¬ k = k0 := fun hc => hk hc.symm
      simp only [List.map_cons, ih, this, false_or]
      split <;> simp

theorem lookup_isSome_iff {k : NodeId} {l : List (NodeId × Val)} :
    (∃ w, l.lookup k = some w) ↔ k ∈ l.map (·.1) := by
  induction l with
  | nil => simp [List.lookup]
  | cons p rest ih =>
    obtain ⟨k0, v0⟩ := p
    simp only [List.lookup, List.map_cons, List.mem_cons]
    rcases hbeq : (k == k0) with _ | _
    · simp only [beq_eq_false_iff_ne, ne_eq] at hbeq
      simp [hbeq, ih]
    · have : k = k0 := by simpa using hbeq
      simp [this]

theorem nodup_map_fst_upsert {k : NodeId} {v : Val} {l : List (NodeId × Val)}
    (h : (l.map (·.1)).Nodup) : ((upsert k v l).map (·.1)).Nodup := by
  rw [map_fst_upsert]
  split
  · exact h
  · rename_i hk
    refine List.Nodup.append h (List.nodup_singleton _) ?_
    intro x hx hx2
    rw [List.mem_singleton] at hx2
    subst hx2
    exact hk hx

/-!
## Graph-level consequences
-/

theorem nodeIds_add_node (g : Graph) (nid : NodeId) (h : Val) :
    (g.add_node nid h).nodeIds =
      if nid ∈ g.nodeIds then g.nodeIds else g.nodeIds ++ [nid] := by
  simp [add_node, nodeIds, map_nid_setHeur]

theorem nodeIds_add_edge (g : Graph) (u v : NodeId) (w : Val) :
    (g.add_edge u v w).nodeIds =
      (g.nodeIds ++ if u ∈ g.nodeIds then [] else [u]) ++
        (if v ∈ g.nodeIds ∨ v = u then [] else [v]) := by
  simp only [add_edge, nodeIds, map_nid_setSucc, map_nid_ensure]
  by_cases hu : u ∈ g.nodes.map (·.nid)
  · by_cases hv : v ∈ g.nodes.map (·.nid)
    · simp [hu, hv]
    · by_cases hvu : v = u
      · subst hvu
        simp [hu] at hv
      · simp [hu, hv, hvu]
  · by_cases hv : v ∈ g.nodes.map (·.nid) ++ [u]
    · simp only [List.mem_append, List.mem_singleton] at hv
      rcases hv with hv | hv
      · simp [hu, hv]
      · simp [hu, hv, List.mem_append]
    · simp only [List.mem_append, List.mem_singleton, not_or] at hv
      simp [hu, hv.1, hv.2, List.mem_append]

theorem get_edge_weight_add_edge (g : Graph) (u v : NodeId) (w : Val) :
    (g.add_edge u v w).get_edge_weight u v = .ok w := by
  simp only [add_edge, get_edge_weight, findE_setSucc_self]
  have hfind : findE u (ensure v (ensure u g.nodes)) =
      some (((findE u g.nodes).getD ⟨u, none, []⟩)) := by
    by_cases hvu : v = u
    · subst hvu
      rw [findE_ensure_self, findE_ensure_self]
      simp
    · rw [findE_ensure_ne (Ne.symm hvu), findE_ensure_self]
  rw [hfind]
  simp [lookup_upsert_self]

theorem heurOf_add_edge (g : Graph) (u v : NodeId) (w : Val) (k : NodeId) :
    (g.add_edge u v w).heurOf k = g.heurOf k := by
  simp only [add_edge, heurOf]
  by_cases hku : k = u
  · rw [hku, findE_setSucc_self]
    by_cases hvu : v = u
    · rw [hvu, findE_ensure_self, findE_ensure_self]
      cases hfe : findE u g.nodes <;> simp [hfe]
    · rw [findE_ensure_ne (Ne.symm hvu), findE_ensure_self]
      cases hfe : findE u g.nodes <;> simp [hfe]
  · rw [findE_setSucc_ne hku]
    by_cases hkv : k = v
    · have huv : v ≠ u := by rw [← hkv]; exact hku
      rw [hkv, findE_ensure_self, findE_ensure_ne huv]
      cases hfe : findE v g.nodes <;> simp [hfe]
    · rw [findE_ensure_ne hkv, findE_ensure_ne hku]

theorem get_neighbors_error_of_not_mem {g : Graph} {nid : NodeId} (h : nid ∉ g.nodeIds) :
    g.get_neighbors nid = .error .unknownNode := by
  unfold get_neighbors
  rw [findE_eq_none.mpr h]

theorem get_neighbors_ok_of_mem {g : Graph} {nid : NodeId} (h : nid ∈ g.nodeIds) :
    ∃ e, findE nid g.nodes = some e ∧ g.get_neighbors nid = .ok (e.succ.map (·.1)) := by
  obtain ⟨e, he⟩ := findE_isSome.mpr h
  exact ⟨e, he, by unfold get_neighbors; rw [he]⟩

theorem mem_get_neighbors_iff {g : Graph} {nid : NodeId} {ns : List NodeId}
    (h : g.get_neighbors nid = .ok ns) (v : NodeId) : v ∈ ns ↔ g.hasEdge nid v := by
  unfold get_neighbors at h
  cases hfe : findE nid g.nodes with
  | none => simp [hfe] at h
  | some e =>
    simp only [hfe] at h
    cases h
    unfold hasEdge get_edge_weight
    simp only [hfe]
    constructor
    · intro hv
      obtain ⟨w, hw⟩ := lookup_isSome_iff.mpr hv
      exact ⟨w, by simp [hw]⟩
    · rintro ⟨w, hw⟩
      cases hlk : e.succ.lookup v with
      | none => simp [hlk] at hw
      | some w0 => exact lookup_isSome_iff.mp ⟨w0, hlk⟩

theorem get_neighbors_add_edge_self {g : Graph} {u : NodeId} {ns : List NodeId}
    (v : NodeId) (w : Val) (h : g.get_neighbors u = .ok ns) :
    (g.add_edge u v w).get_neighbors u = .ok (if v ∈ ns then ns else ns ++ [v]) := by
  unfold get_neighbors at h
  cases hfe : findE u g.nodes with
  | none => simp [hfe] at h
  | some e =>
    simp only [hfe] at h
    cases h
    have hfind : findE u (ensure v (ensure u g.nodes)) = some e := by
      by_cases hvu : v = u
      · rw [hvu, findE_ensure_self, findE_ensure_self, hfe]
        simp
      · rw [findE_ensure_ne (Ne.symm hvu), findE_ensure_self, hfe]
        simp
    have hfound : findE u ((g.add_edge u v w).nodes) =
        some ⟨e.nid, e.heuristic, upsert v w e.succ⟩ := by
      show findE u (setSucc u v w (ensure v (ensure u g.nodes))) = _
      rw [findE_setSucc_self, hfind]
      rfl
    unfold get_neighbors
    simp only [hfound]
    rw [map_fst_upsert]

theorem wf_empty : WF Graph.empty := by
  constructor <;> simp [Graph.empty]

theorem mem_setHeur {e' : NodeEntry} {nid : NodeId} {h : Val} {l : List NodeEntry}
    (hm : e' ∈ setHeur nid h l) : (∃ e ∈ l, e'.succ = e.succ) ∨ e'.succ = [] := by
  induction l with
  | nil =>
    simp only [setHeur, List.mem_singleton] at hm
    subst hm
    right; rfl
  | cons e0 rest ih =>
    simp only [setHeur] at hm
    split at hm
    · rcases List.mem_cons.mp hm with h1 | h1
      · subst h1
        left; exact ⟨e0, List.mem_cons_self _ _, rfl⟩
      · left; exact ⟨e', List.mem_cons_of_mem _ h1, rfl⟩
    · rcases List.mem_cons.mp hm with h1 | h1
      · subst h1
        left; exact ⟨e', List.mem_cons_self _ _, rfl⟩
      · rcases ih h1 with ⟨e, hel, hs⟩ | hs
        · left; exact ⟨e, List.mem_cons_of_mem _ hel, hs⟩
        · right; exact hs

theorem mem_ensure {e' : NodeEntry} {nid : NodeId} {l : List NodeEntry}
    (hm : e' ∈ ensure nid l) : e' ∈ l ∨ e' = ⟨nid, none, []⟩ := by
  induction l with
  | nil =>
    simp only [ensure, List.mem_singleton] at hm
    right; exact hm
  | cons e0 rest ih =>
    simp only [ensure] at hm
    split at hm
    · left; exact hm
    · rcases List.mem_cons.mp hm with h1 | h1
      · left; subst h1; exact List.mem_cons_self _ _
      · rcases ih h1 with h2 | h2
        · left; exact List.mem_cons_of_mem _ h2
        · right; exact h2

theorem mem_setSucc {e' : NodeEntry} {u v : NodeId} {w : Val} {l : List NodeEntry}
    (hm : e' ∈ setSucc u v w l) :
    e' ∈ l ∨ ∃ e ∈ l, e' = ⟨e.nid, e.heuristic, upsert v w e.succ⟩ := by
  induction l with
  | nil => simp [setSucc] at hm
  | cons e0 rest ih =>
    simp only [setSucc] at hm
    split at hm
    · rcases List.mem_cons.mp hm with h1 | h1
      · right; exact ⟨e0, List.mem_cons_self _ _, h1⟩
      · left; exact List.mem_cons_of_mem _ h1
    · rcases List.mem_cons.mp hm with h1 | h1
      · left; subst h1; exact List.mem_cons_self _ _
      · rcases ih h1 with h2 | h2
        · left; exact List.mem_cons_of_mem _ h2
        · rcases h2 with ⟨e, hel, he⟩
          right; exact ⟨e, List.mem_cons_of_mem _ hel, he⟩

theorem wf_add_node {g : Graph} (nid : NodeId) (h : Val) (hwf : WF g) :
    WF (g.add_node nid h) := by
  obtain ⟨hkeys, hsucc⟩ := hwf
  constructor
  · show ((setHeur nid h g.nodes).map (·.nid)).Nodup
    rw [map_nid_setHeur]
    split
    · exact hkeys
    · rename_i hmem
      refine List.Nodup.append hkeys (List.nodup_singleton _) ?_
      intro x hx hx2
      rw [List.mem_singleton] at hx2
      subst hx2
      exact hmem hx
  · intro e' he'
    rcases mem_setHeur he' with ⟨e, hel, hs⟩ | hs
    · rw [hs]; exact hsucc e hel
    · rw [hs]; simp

theorem wf_ensure {l : List NodeEntry} (nid : NodeId)
    (hkeys : (l.map (·.nid)).Nodup) (hsucc : ∀ e ∈ l, (e.succ.map (·.1)).Nodup) :
    ((ensure nid l).map (·.nid)).Nodup ∧ ∀ e ∈ ensure nid l, (e.succ.map (·.1)).Nodup := by
  constructor
  · rw [map_nid_ensure]
    split
    · exact hkeys
    · rename_i hmem
      refine List.Nodup.append hkeys (List.nodup_singleton _) ?_
      intro x hx hx2
      rw [List.mem_singleton] at hx2
      subst hx2
      exact hmem hx
  · intro e' he'
    rcases mem_ensure he' with h1 | h1
    · exact hsucc e' h1
    · rw [h1]; simp

theorem wf_add_edge {g : Graph} (u v : NodeId) (w : Val) (hwf : WF g) :
    WF (g.add_edge u v w) := by
  obtain ⟨hk1, hs1⟩ := wf_ensure u hwf.1 hwf.2
  obtain ⟨hk2, hs2⟩ := wf_ensure v hk1 hs1
  constructor
  · show ((setSucc u v w (ensure v (ensure u g.nodes))).map (·.nid)).Nodup
    rw [map_nid_setSucc]
    exact hk2
  · intro e' he'
    rcases mem_setSucc he' with h1 | ⟨e, hel, he⟩
    · exact hs2 e' h1
    · rw [he]
      exact nodup_map_fst_upsert (hs2 e hel)

theorem get_heuristic_of_heurOf_some {g : Graph} {nid : NodeId} {v : Val}
    (h : g.heurOf nid = some v) : g.get_heuristic nid = .ok v := by
  unfold heurOf at h
  unfold get_heuristic
  cases hfe : findE nid g.nodes with
  | none => simp [hfe] at h
  | some e =>
    rw [hfe] at h
    replace h : e.heuristic = some v := h
    simp only [hfe]
    rw [h]

theorem get_heuristic_of_heurOf_none {g : Graph} {nid : NodeId}
    (h : g.heurOf nid = none) : g.get_heuristic nid = .error .unknownNode := by
  unfold heurOf at h
  unfold get_heuristic
  cases hfe : findE nid g.nodes with
  | none => simp
  | some e =>
    rw [hfe] at h
    replace h : e.heuristic = none := h
    simp only [hfe]
    rw [h]

theorem get_heuristic_add_node_self (g : Graph) (nid : NodeId) (h : Val) :
    (g.add_node nid h).get_heuristic nid = .ok h := by
  unfold get_heuristic add_node
  simp only [findE_setHeur_self]

theorem heurOf_add_node_ne {k nid : NodeId} (hne : k ≠ nid) (g : Graph) (h : Val) :
    (g.add_node nid h).heurOf k = g.heurOf k := by
  unfold heurOf add_node
  simp only [findE_setHeur_ne hne]

theorem heurOf_none_of_not_mem {g : Graph} {nid : NodeId} (h : nid ∉ g.nodeIds) :
    g.heurOf nid = none := by
  unfold heurOf
  simp [findE_eq_none.mpr h]

theorem set_start_node_ok {g : Graph} {nid : NodeId} (h : nid ∈ g.nodeIds) :
    g.set_start_node nid = .ok { g with start_node := some nid } := by
  simp [set_start_node, h]

theorem set_start_node_error {g : Graph} {nid : NodeId} (h : nid ∉ g.nodeIds) :
    g.set_start_node nid = .error .unknownNode := by
  simp [set_start_node, h]

theorem set_goal_node_ok {g : Graph} {nid : NodeId} (h : nid ∈ g.nodeIds) :
    g.set_goal_node nid = .ok { g with goal_node := some nid } := by
  simp [set_goal_node, h]

theorem set_goal_node_error {g : Graph} {nid : NodeId} (h : nid ∉ g.nodeIds) :
    g.set_goal_node nid = .error .unknownNode := by
  simp [set_goal_node, h]

theorem set_start_node_ok_inv {g g' : Graph} {nid : NodeId}
    (h : g.set_start_node nid = .ok g') :
    nid ∈ g.nodeIds ∧ g' = { g with start_node := some nid } := by
  unfold set_start_node at h
  split at h
  · exact ⟨by assumption, by cases h; rfl⟩
  · cases h

theorem set_goal_node_ok_inv {g g' : Graph} {nid : NodeId}
    (h : g.set_goal_node nid = .ok g') :
    nid ∈ g.nodeIds ∧ g' = { g with goal_node := some nid } := by
  unfold set_goal_node at h
  split at h
  · exact ⟨by assumption, by cases h; rfl⟩
  · cases h

theorem serializeNodes_error_of_missing {l : List NodeEntry}
    (h : ∃ e ∈ l, e.heuristic = none) : serializeNodes l = .error .unknownNode := by
  induction l with
  | nil => simp at h
  | cons e0 rest ih =>
    rcases h with ⟨e, he, hnone⟩
    rcases List.mem_cons.mp he with h1 | h1
    · subst h1
      simp [serializeNodes, hnone]
    · unfold serializeNodes
      cases hh : e0.heuristic with
      | none => rfl
      | some v => rw [ih ⟨e, h1, hnone⟩]

theorem serializeNodes_ok_of_total {l : List NodeEntry}
    (h : ∀ e ∈ l, e.heuristic ≠ none) : ∃ js, serializeNodes l = .ok js := by
  induction l with
  | nil => exact ⟨[], rfl⟩
  | cons e0 rest ih =>
    cases hh : e0.heuristic with
    | none => exact absurd hh (h e0 (List.mem_cons_self _ _))
    | some v =>
      obtain ⟨js, hjs⟩ := ih (fun e he => h e (List.mem_cons_of_mem _ he))
      refine ⟨.obj [("id", .str e0.nid), ("heuristic", .num v)] :: js, ?_⟩
      unfold serializeNodes
      rw [hh, hjs]

theorem serialize_error_of_missing {g : Graph}
    (h : ∃ e ∈ g.nodes, e.heuristic = none) : g.serialize = .error .unknownNode := by
  unfold serialize
  rw [serializeNodes_error_of_missing h]

theorem serialize_error_of_phantom {g : Graph} {x : NodeId}
    (hmem : x ∈ g.nodeIds) (hnone : g.heurOf x = none) :
    g.serialize = .error .unknownNode := by
  obtain ⟨e, hfe⟩ := findE_isSome.mpr hmem
  have he : e.heuristic = none := by
    have h2 := hnone
    unfold heurOf at h2
    rw [hfe] at h2
    exact h2
  exact serialize_error_of_missing ⟨e, findE_mem hfe, he⟩

theorem serialize_ok_of_total {g : Graph}
    (h : ∀ e ∈ g.nodes, e.heuristic ≠ none) : ∃ j, g.serialize = .ok j := by
  obtain ⟨js, hjs⟩ := serializeNodes_ok_of_total h
  refine ⟨.obj
    [("nodes", .arr js),
     ("edges", .arr (serializeEdges g.nodes)),
     ("start_node", match g.start_node with | none => .null | some s => .str s),
     ("goal_node", match g.goal_node with | none => .null | some t => .str t)], ?_⟩
  unfold serialize
  rw [hjs]

theorem loadNodes_start_goal {l : List JVal} :
    ∀ {g g' : Graph}, loadNodes g l = .ok g' →
      g'.start_node = g.start_node ∧ g'.goal_node = g.goal_node := by
  induction l with
  | nil =>
    intro g g' h
    unfold loadNodes at h
    cases h
    exact ⟨rfl, rfl⟩
  | cons j rest ih =>
    intro g g' h
    unfold loadNodes at h
    split at h
    · exact ⟨(ih h).1, (ih h).2⟩
    · cases h

theorem loadEdges_start_goal {l : List JVal} :
    ∀ {g g' : Graph}, loadEdges g l = .ok g' →
      g'.start_node = g.start_node ∧ g'.goal_node = g.goal_node := by
  induction l with
  | nil =>
    intro g g' h
    unfold loadEdges at h
    cases h
    exact ⟨rfl, rfl⟩
  | cons j rest ih =>
    intro g g' h
    unfold loadEdges at h
    split at h
    · exact ⟨(ih h).1, (ih h).2⟩
    · cases h

theorem loadStart_inv {g g' : Graph} {j : JVal} (hinv : Inv g)
    (h : loadStart g j = .ok g') : Inv g' ∧ g'.nodeIds = g.nodeIds ∧
      g'.goal_node = g.goal_node := by
  unfold loadStart at h
  split at h
  · split at h
    · obtain ⟨hmem, hg⟩ := set_start_node_ok_inv h
      subst hg
      refine ⟨⟨?_, ?_⟩, rfl, rfl⟩
      · intro s0 hs0
        cases hs0
        exact hmem
      · exact hinv.2
    · cases h
  · cases h
    exact ⟨hinv, rfl, rfl⟩

theorem loadGoal_inv {g g' : Graph} {j : JVal} (hinv : Inv g)
    (h : loadGoal g j = .ok g') : Inv g' := by
  unfold loadGoal at h
  split at h
  · split at h
    · obtain ⟨hmem, hg⟩ := set_goal_node_ok_inv h
      subst hg
      refine ⟨hinv.1, ?_⟩
      intro t0 ht0
      cases ht0
      exact hmem
    · cases h
  · cases h
    exact hinv

theorem load_from_file_inv {j : JVal} {g : Graph}
    (h : load_from_file j = .ok g) : Inv g := by
  unfold load_from_file at h
  cases ha : loadArr j "nodes" with
  | error er => rw [ha, error_bind] at h; cases h
  | ok nodeList =>
    rw [ha, ok_bind] at h
    cases hln : loadNodes Graph.empty nodeList with
    | error er => rw [hln, error_bind] at h; cases h
    | ok g1 =>
      rw [hln, ok_bind] at h
      cases hae : loadArr j "edges" with
      | error er => rw [hae, error_bind] at h; cases h
      | ok edgeList =>
        rw [hae, ok_bind] at h
        cases hle : loadEdges g1 edgeList with
        | error er => rw [hle, error_bind] at h; cases h
        | ok g2 =>
          rw [hle, ok_bind] at h
          have hg2start : g2.start_node = none := by
            rw [(loadEdges_start_goal hle).1, (loadNodes_start_goal hln).1]
            rfl
          have hg2goal : g2.goal_node = none := by
            rw [(loadEdges_start_goal hle).2, (loadNodes_start_goal hln).2]
            rfl
          have hinv2 : Inv g2 := by
            constructor
            · intro s hs
              rw [hg2start] at hs
              cases hs
            · intro t ht
              rw [hg2goal] at ht
              cases ht
          cases hls : loadStart g2 j with
          | error er => rw [hls, error_bind] at h; cases h
          | ok g3 =>
            rw [hls, ok_bind] at h
            exact loadGoal_inv (loadStart_inv hinv2 hls).1 h

theorem nodeIds_subset_add_node (g : Graph) (nid : NodeId) (h : Val) :
    g.nodeIds ⊆ (g.add_node nid h).nodeIds := by
  rw [nodeIds_add_node]
  split
  · exact fun x hx => hx
  · exact List.subset_append_left _ _

theorem nodeIds_subset_add_edge (g : Graph) (u v : NodeId) (w : Val) :
    g.nodeIds ⊆ (g.add_edge u v w).nodeIds := by
  rw [nodeIds_add_edge]
  intro x hx
  exact List.mem_append_left _ (List.mem_append_left _ hx)

theorem mem_nodeIds_add_edge_fst (g : Graph) (u v : NodeId) (w : Val) :
    u ∈ (g.add_edge u v w).nodeIds := by
  rw [nodeIds_add_edge]
  by_cases hu : u ∈ g.nodeIds
  · exact List.mem_append_left _ (List.mem_append_left _ hu)
  · refine List.mem_append_left _ (List.mem_append_right _ ?_)
    simp [hu]

theorem mem_nodeIds_add_edge_snd (g : Graph) (u v : NodeId) (w : Val) :
    v ∈ (g.add_edge u v w).nodeIds := by
  rw [nodeIds_add_edge]
  by_cases hv : v ∈ g.nodeIds ∨ v = u
  · rcases hv with hv | hv
    · exact List.mem_append_left _ (List.mem_append_left _ hv)
    · subst hv
      by_cases hu : v ∈ g.nodeIds
      · exact List.mem_append_left _ (List.mem_append_left _ hu)
      · exact List.mem_append_left _ (List.mem_append_right _ (by simp [hu]))
  · refine List.mem_append_right _ ?_
    simp [hv]

theorem inv_add_node {g : Graph} (nid : NodeId) (h : Val) (hinv : Inv g) :
    Inv (g.add_node nid h) := by
  refine ⟨?_, ?_⟩
  · intro s hs
    exact nodeIds_subset_add_node g nid h (hinv.1 s hs)
  · intro t ht
    exact nodeIds_subset_add_node g nid h (hinv.2 t ht)

theorem inv_add_edge {g : Graph} (u v : NodeId) (w : Val) (hinv : Inv g) :
    Inv (g.add_edge u v w) := by
  refine ⟨?_, ?_⟩
  · intro s hs
    exact nodeIds_subset_add_edge g u v w (hinv.1 s hs)
  · intro t ht
    exact nodeIds_subset_add_edge g u v w (hinv.2 t ht)

theorem inv_set_start {g g' : Graph} {nid : NodeId} (hinv : Inv g)
    (h : g.set_start_node nid = .ok g') : Inv g' := by
  obtain ⟨hmem, hg⟩ := set_start_node_ok_inv h
  subst hg
  exact ⟨fun s hs => by cases hs; exact hmem, hinv.2⟩

theorem inv_set_goal {g g' : Graph} {nid : NodeId} (hinv : Inv g)
    (h : g.set_goal_node nid = .ok g') : Inv g' := by
  obtain ⟨hmem, hg⟩ := set_goal_node_ok_inv h
  subst hg
  exact ⟨hinv.1, fun t ht => by cases ht; exact hmem⟩

/-!
## Round trip on valid graphs

`load_from_file` rebuilds the nodes, then the edges, then the
designations of the saved graph; the next lemmas replay the three loops
and culminate in `roundtrip_reproduces`: for every well-formed, fully
registered, closed graph whose designations are valid and not the empty
string, loading the saved representation reproduces the graph exactly.
-/

theorem setHeur_append {nid : NodeId} {l : List NodeEntry}
    (h : nid ∉ l.map (·.nid)) (hv : Val) :
    setHeur nid hv l = l ++ [⟨nid, some hv, []⟩] := by
  induction l with
  | nil => simp [setHeur]
  | cons e rest ih =>
    simp only [List.map_cons, List.mem_cons] at h
    push_neg at h
    simp only [setHeur]
    rw [if_neg (fun hc => h.1 hc.symm), ih h.2]
    rfl

theorem ensure_of_mem {nid : NodeId} {l : List NodeEntry}
    (h : nid ∈ l.map (·.nid)) : ensure nid l = l := by
  induction l with
  | nil => simp at h
  | cons e rest ih =>
    simp only [List.map_cons, List.mem_cons] at h
    simp only [ensure]
    split
    · rfl
    · rename_i hne
      rcases h with h | h
      · exact absurd h.symm hne
      · rw [ih h]

theorem upsert_append {v : NodeId} {sc : List (NodeId × Val)}
    (h : v ∉ sc.map (·.1)) (w : Val) :
    upsert v w sc = sc ++ [(v, w)] := by
  induction sc with
  | nil => simp [upsert]
  | cons p rest ih =>
    obtain ⟨k0, v0⟩ := p
    simp only [List.map_cons, List.mem_cons] at h
    push_neg at h
    simp only [upsert]
    rw [if_neg (fun hc => h.1 hc.symm), ih h.2]
    rfl

theorem setSucc_decompose {u : NodeId} {pre : List NodeEntry}
    (h : u ∉ pre.map (·.nid)) (hu : Option Val) (sc : List (NodeId × Val))
    (post : List NodeEntry) (v : NodeId) (w : Val) :
    setSucc u v w (pre ++ ⟨u, hu, sc⟩ :: post) =
      pre ++ ⟨u, hu, upsert v w sc⟩ :: post := by
  induction pre with
  | nil => simp [setSucc]
  | cons e rest ih =>
    simp only [List.map_cons, List.mem_cons] at h
    push_neg at h
    simp only [List.cons_append, setSucc]
    rw [if_neg (Ne.symm h.1)]
    exact congrArg (e :: ·) (ih h.2)

theorem loadEdges_cons (g : Graph) (j : JVal) (rest : List JVal) :
    loadEdges g (j :: rest) =
      match jField j "from", jField j "to", jField j "weight" with
      | some (.str u), some (.str v), some (.num w) => loadEdges (g.add_edge u v w) rest
      | _, _, _ => .error .deserialization := rfl

theorem loadNodes_cons (g : Graph) (j : JVal) (rest : List JVal) :
    loadNodes g (j :: rest) =
      match jField j "id", jField j "heuristic" with
      | some (.str nid), some (.num h) => loadNodes (g.add_node nid h) rest
      | _, _ => .error .deserialization := rfl

theorem loadEdges_append (l1 l2 : List JVal) (g : Graph) :
    loadEdges g (l1 ++ l2) = (loadEdges g l1).bind (fun g' => loadEdges g' l2) := by
  induction l1 generalizing g with
  | nil => rfl
  | cons j rest ih =>
    simp only [List.cons_append, loadEdges_cons]
    split
    · exact ih _
    · rfl

theorem serializeNodes_eq {l : List NodeEntry}
    (h : ∀ e ∈ l, e.heuristic ≠ none) :
    serializeNodes l = .ok (l.map nodeJson) := by
  induction l with
  | nil => rfl
  | cons e rest ih =>
    cases hh : e.heuristic with
    | none => exact absurd hh (h e (List.mem_cons_self _ _))
    | some v =>
      unfold serializeNodes
      rw [hh, ih (fun e0 he0 => h e0 (List.mem_cons_of_mem _ he0))]
      simp [nodeJson, hh]

theorem map_nid_stripE (l : List NodeEntry) :
    (l.map stripE).map (·.nid) = l.map (·.nid) := by
  rw [List.map_map]
  rfl

theorem loadNodes_build {l : List NodeEntry} :
    ∀ {g0 : Graph},
      (∀ e ∈ l, e.heuristic ≠ none) →
      (∀ e ∈ l, e.nid ∉ g0.nodeIds) →
      (l.map (·.nid)).Nodup →
      loadNodes g0 (l.map nodeJson) =
        .ok ⟨g0.nodes ++ l.map stripE, g0.start_node, g0.goal_node⟩ := by
  induction l with
  | nil =>
    intro g0 _ _ _
    show Except.ok g0 = _
    rw [List.map_nil, List.append_nil]
  | cons e rest ih =>
    intro g0 htot hfresh hnodup
    rw [List.map_cons, loadNodes_cons]
    show loadNodes (g0.add_node e.nid (e.heuristic.getD 0)) (rest.map nodeJson) = _
    have hfr : e.nid ∉ g0.nodes.map (·.nid) := hfresh e (List.mem_cons_self _ _)
    have hadd : (g0.add_node e.nid (e.heuristic.getD 0)).nodes =
        g0.nodes ++ [⟨e.nid, some (e.heuristic.getD 0), []⟩] := by
      show setHeur e.nid (e.heuristic.getD 0) g0.nodes = _
      exact setHeur_append hfr _
    have he : (⟨e.nid, some (e.heuristic.getD 0), []⟩ : NodeEntry) = stripE e := by
      cases hh : e.heuristic with
      | none => exact absurd hh (htot e (List.mem_cons_self _ _))
      | some v => simp [stripE, hh]
    have hfresh2 : ∀ e0 ∈ rest, e0.nid ∉ (g0.add_node e.nid (e.heuristic.getD 0)).nodeIds := by
      intro e0 he0
      show e0.nid ∉ (g0.add_node e.nid (e.heuristic.getD 0)).nodes.map (·.nid)
      rw [hadd, List.map_append]
      rw [List.mem_append]
      push_neg
      constructor
      · exact hfresh e0 (List.mem_cons_of_mem _ he0)
      · have hne : e0.nid ≠ e.nid := by
          have hn := List.nodup_cons.mp hnodup
          intro hc
          have hmm : e0.nid ∈ rest.map (·.nid) := List.mem_map_of_mem (·.nid) he0
          rw [hc] at hmm
          exact hn.1 hmm
        simp [hne]
    have ihx := @ih (g0.add_node e.nid (e.heuristic.getD 0))
      (fun e0 he0 => htot e0 (List.mem_cons_of_mem _ he0)) hfresh2
      (List.nodup_cons.mp hnodup).2
    rw [ihx, hadd]
    have hstart : (g0.add_node e.nid (e.heuristic.getD 0)).start_node = g0.start_node := rfl
    have hgoal : (g0.add_node e.nid (e.heuristic.getD 0)).goal_node = g0.goal_node := rfl
    rw [hstart, hgoal, List.map_cons, he]
    rw [List.append_assoc, List.singleton_append]

theorem loadEdges_entry {u : NodeId} {sc : List (NodeId × Val)} :
    ∀ {done : List (NodeId × Val)} {pre post : List NodeEntry} {hu : Option Val}
      {s t : Option NodeId},
      u ∉ pre.map (·.nid) →
      (∀ p ∈ sc, p.1 ∈ (pre.map (·.nid) ++ u :: post.map (·.nid) : List NodeId)) →
      ((done ++ sc).map (·.1)).Nodup →
      loadEdges ⟨pre ++ ⟨u, hu, done⟩ :: post, s, t⟩ (sc.map (edgeJson u)) =
        .ok ⟨pre ++ ⟨u, hu, done ++ sc⟩ :: post, s, t⟩ := by
  induction sc with
  | nil =>
    intro done pre post hu s t _ _ _
    show Except.ok _ = _
    rw [List.append_nil]
  | cons p sc2 ih =>
    obtain ⟨v, w⟩ := p
    intro done pre post hu s t hpre htgt hnodup
    rw [List.map_cons, loadEdges_cons]
    show loadEdges ((⟨pre ++ ⟨u, hu, done⟩ :: post, s, t⟩ : Graph).add_edge u v w)
      (sc2.map (edgeJson u)) = _
    have hmaps : ((pre ++ (⟨u, hu, done⟩ : NodeEntry) :: post).map (·.nid)) =
        pre.map (·.nid) ++ u :: post.map (·.nid) := by
      rw [List.map_append, List.map_cons]
    have hmemu : u ∈ ((pre ++ (⟨u, hu, done⟩ : NodeEntry) :: post).map (·.nid)) := by
      rw [hmaps]
      exact List.mem_append_right _ (List.mem_cons_self _ _)
    have hmemv : v ∈ ((pre ++ (⟨u, hu, done⟩ : NodeEntry) :: post).map (·.nid)) := by
      rw [hmaps]
      exact htgt (v, w) (List.mem_cons_self _ _)
    have hvdone : v ∉ done.map (·.1) := by
      intro hvd
      have hnd := hnodup
      rw [List.map_append] at hnd
      exact (List.disjoint_of_nodup_append hnd) hvd
        (by rw [List.map_cons]; exact List.mem_cons_self _ _)
    have hadd : (⟨pre ++ ⟨u, hu, done⟩ :: post, s, t⟩ : Graph).add_edge u v w =
        ⟨pre ++ ⟨u, hu, done ++ [(v, w)]⟩ :: post, s, t⟩ := by
      show (⟨setSucc u v w (ensure v (ensure u (pre ++ ⟨u, hu, done⟩ :: post))), s, t⟩ : Graph) = _
      rw [ensure_of_mem hmemu, ensure_of_mem hmemv, setSucc_decompose hpre]
      rw [upsert_append hvdone]
    rw [hadd]
    have hassoc : (done ++ [(v, w)]) ++ sc2 = done ++ (v, w) :: sc2 := by
      rw [List.append_assoc, List.singleton_append]
    have ihx := @ih (done ++ [(v, w)]) pre post hu s t hpre
      (fun p hp => htgt p (List.mem_cons_of_mem _ hp))
      (by rw [hassoc]; exact hnodup)
    rw [ihx, hassoc]

theorem loadEdges_build {rest : List NodeEntry} :
    ∀ {pre : List NodeEntry} {s t : Option NodeId},
      (((pre ++ rest).map (·.nid)).Nodup) →
      (∀ e ∈ rest, (e.succ.map (·.1)).Nodup) →
      (∀ e ∈ rest, ∀ p ∈ e.succ, p.1 ∈ (((pre ++ rest).map (·.nid)) : List NodeId)) →
      loadEdges ⟨pre ++ rest.map stripE, s, t⟩ (serializeEdges rest) =
        .ok ⟨pre ++ rest, s, t⟩ := by
  induction rest with
  | nil =>
    intro pre s t _ _ _
    show Except.ok _ = _
    rw [List.map_nil]
  | cons e rest2 ih =>
    intro pre s t hnodup hsucc htgt
    have hser : serializeEdges (e :: rest2) =
        (e.succ.map (edgeJson e.nid)) ++ serializeEdges rest2 := by
      show (e :: rest2).flatMap _ = _
      rw [List.flatMap_cons]
      rfl
    rw [hser, loadEdges_append, List.map_cons]
    have hsplit : ((pre ++ e :: rest2).map (·.nid)) =
        pre.map (·.nid) ++ e.nid :: rest2.map (·.nid) := by
      rw [List.map_append, List.map_cons]
    have hpre : e.nid ∉ pre.map (·.nid) := by
      intro hc
      have hnd := hnodup
      rw [hsplit] at hnd
      exact (List.disjoint_of_nodup_append hnd) hc (List.mem_cons_self _ _)
    have htgthead : ∀ p ∈ e.succ,
        p.1 ∈ (pre.map (·.nid) ++ e.nid :: (rest2.map stripE).map (·.nid) : List NodeId) := by
      intro p hp
      rw [map_nid_stripE]
      have := htgt e (List.mem_cons_self _ _) p hp
      rw [hsplit] at this
      exact this
    have h2 := @loadEdges_entry e.nid e.succ [] pre (rest2.map stripE) e.heuristic s t
      hpre htgthead (by rw [List.nil_append]; exact hsucc e (List.mem_cons_self _ _))
    have hmid : (⟨e.nid, e.heuristic, []⟩ : NodeEntry) = stripE e := rfl
    rw [hmid] at h2
    rw [h2, ok_bind]
    have hmid2 : (⟨e.nid, e.heuristic, [] ++ e.succ⟩ : NodeEntry) = e := by
      rw [List.nil_append]
    rw [hmid2] at *
    have hshift : pre ++ e :: rest2.map stripE = (pre ++ [e]) ++ rest2.map stripE := by
      rw [List.append_assoc, List.singleton_append]
    have hshift2 : (pre ++ [e]) ++ rest2 = pre ++ e :: rest2 := by
      rw [List.append_assoc, List.singleton_append]
    rw [hshift]
    have ihx := @ih (pre ++ [e]) s t
      (by rw [hshift2]; exact hnodup)
      (fun e0 he0 => hsucc e0 (List.mem_cons_of_mem _ he0))
      (by rw [hshift2]; exact fun e0 he0 p hp => htgt e0 (List.mem_cons_of_mem _ he0) p hp)
    rw [ihx, hshift2]

theorem load_saved (g : Graph) (J : JVal)
    (hN : loadArr J "nodes" = .ok (g.nodes.map nodeJson))
    (hE : loadArr J "edges" = .ok (serializeEdges g.nodes))
    (hS : jField J "start_node" =
      some (match g.start_node with | none => .null | some s => .str s))
    (hG : jField J "goal_node" =
      some (match g.goal_node with | none => .null | some t => .str t))
    (hwf : WF g)
    (htot : ∀ e ∈ g.nodes, e.heuristic ≠ none)
    (hclosed : ∀ e ∈ g.nodes, ∀ p ∈ e.succ, p.1 ∈ g.nodeIds)
    (hinv : Inv g)
    (hstart : g.start_node ≠ some "")
    (hgoal : g.goal_node ≠ some "") :
    load_from_file J = .ok g := by
  unfold load_from_file
  rw [hN, ok_bind]
  have hln := @loadNodes_build g.nodes Graph.empty htot
    (fun e _ => by simp [Graph.empty, nodeIds]) hwf.1
  have hln2 : loadNodes Graph.empty (g.nodes.map nodeJson) =
      .ok ⟨g.nodes.map stripE, none, none⟩ := by
    rw [hln]
    rfl
  rw [hln2, ok_bind, hE, ok_bind]
  have hle := @loadEdges_build g.nodes [] none none
    (by rw [List.nil_append]; exact hwf.1)
    hwf.2
    (by rw [List.nil_append]; exact hclosed)
  have hle2 : loadEdges ⟨g.nodes.map stripE, none, none⟩ (serializeEdges g.nodes) =
      .ok ⟨g.nodes, none, none⟩ := by
    have h0 := hle
    rw [List.nil_append, List.nil_append] at h0
    exact h0
  rw [hle2, ok_bind]
  have hls : loadStart ⟨g.nodes, none, none⟩ J = .ok ⟨g.nodes, g.start_node, none⟩ := by
    unfold loadStart
    rw [hS]
    cases hst : g.start_node with
    | none => rfl
    | some s =>
      have hs : s ≠ "" := fun hc => hstart (by rw [hst, hc])
      simp only [Option.getD_some]
      rw [show jTruthy (JVal.str s) = true from by simp [jTruthy, hs]]
      simp only [if_true]
      have hmem : s ∈ (⟨g.nodes, none, none⟩ : Graph).nodeIds := hinv.1 s hst
      rw [set_start_node_ok hmem]
  rw [hls, ok_bind]
  have hlg : loadGoal ⟨g.nodes, g.start_node, none⟩ J =
      .ok ⟨g.nodes, g.start_node, g.goal_node⟩ := by
    unfold loadGoal
    rw [hG]
    cases hgt : g.goal_node with
    | none => rfl
    | some t =>
      have ht : t ≠ "" := fun hc => hgoal (by rw [hgt, hc])
      simp only [Option.getD_some]
      rw [show jTruthy (JVal.str t) = true from by simp [jTruthy, ht]]
      simp only [if_true]
      have hmem : t ∈ (⟨g.nodes, g.start_node, none⟩ : Graph).nodeIds := hinv.2 t hgt
      rw [set_goal_node_ok hmem]
  rw [hlg]

/-- Round trip on valid graphs: a well-formed graph whose nodes all carry
heuristics, whose edges point at existing nodes, whose designations are
valid, and whose designations are not the empty string (the failing case
of the truthiness guard) is reproduced exactly by
`load_from_file ∘ save_to_file`. -/
theorem roundtrip_reproduces {g : Graph}
    (hwf : WF g)
    (htot : ∀ e ∈ g.nodes, e.heuristic ≠ none)
    (hclosed : ∀ e ∈ g.nodes, ∀ p ∈ e.succ, p.1 ∈ g.nodeIds)
    (hinv : Inv g)
    (hstart : g.start_node ≠ some "")
    (hgoal : g.goal_node ≠ some "") :
    g.serialize.bind load_from_file = .ok g := by
  have hser : serialize g = .ok (JVal.obj
      [("nodes", .arr (g.nodes.map nodeJson)),
       ("edges", .arr (serializeEdges g.nodes)),
       ("start_node", match g.start_node with | none => .null | some s => .str s),
       ("goal_node", match g.goal_node with | none => .null | some t => .str t)]) := by
    unfold serialize
    rw [serializeNodes_eq htot]
  rw [hser, ok_bind]
  exact load_saved g _ rfl rfl rfl rfl hwf htot hclosed hinv hstart hgoal

end Graph

/-!
## Claims
-/

/-- C1: the round-trip contract fails on the valid one-node graph whose
node id is the empty string and whose start designation is that node:
the graph is built through the public interface (`add_node` then
`set_start_node`, which accepts `""` since the node exists), `save_to_file`
writes `"start_node": ""`, but `load_from_file` guards the restore with
`if graph_data.get('start_node'):`, which is falsy for `""`, so the loaded
graph has no start designation — the start/goal designation is not
reproduced, contradicting the round-trip contract. -/
theorem C1_roundtrip_loses_empty_start :
    (Graph.empty.add_node "" 0).set_start_node "" =
      .ok ⟨[⟨"", some 0, []⟩], some "", none⟩ ∧
    (Graph.serialize ⟨[⟨"", some 0, []⟩], some "", none⟩).bind Graph.load_from_file =
      .ok ⟨[⟨"", some 0, []⟩], none, none⟩ := by
  exact ⟨rfl, rfl⟩

/-- C2 (counterexample): on the scenario graph A(h=5), B(h=3), C(h=0),
A→B(1), A→C(4), B→C(2), start A, goal C — built here through the public
interface — the spec-modelled engine (frontier keyed solely by the node
heuristic) pops C (h = 0) directly after A, because 0 < 3 = h(B); the
expansion order is [A, C], not [A, B, C] as the claim states. -/
theorem C2_counterexample :
    (((((((Graph.empty.add_node "A" 5).add_node "B" 3).add_node "C" 0).add_edge
        "A" "B" 1).add_edge "A" "C" 4).add_edge "B" "C" 2).set_start_node "A").bind
      (fun g => g.set_goal_node "C") = .ok exampleGraph ∧
    search exampleGraph =
      some ⟨some ["A", "C"], ["A", "C"],
        [⟨"A", ["A"], ["A"]⟩, ⟨"C", ["A", "C"], ["A", "C"]⟩]⟩ ∧
    (["A", "C"] : List NodeId) ≠ ["A", "B", "C"] := by
  exact ⟨rfl, rfl, by decide⟩

/-- C2 (amended): on the scenario graph, the search returns expansion
order [A, C] and path [A, C]: after expanding A, the frontier holds
B (h = 3) and C (h = 0); C is the most promising entry and is popped
next; C is the goal, and its predecessor is A, its first discoverer.
The step trace records the two expansions. -/
theorem C2_expansion_order :
    search exampleGraph =
      some ⟨some ["A", "C"], ["A", "C"],
        [⟨"A", ["A"], ["A"]⟩, ⟨"C", ["A", "C"], ["A", "C"]⟩]⟩ := by
  exact rfl

/-- C3 (counterexample): `add_edge` on the empty graph — neither endpoint
registered — does not fail and does modify the graph: both endpoints are
silently inserted into the node set. -/
theorem C3_counterexample :
    (Graph.empty.add_edge "A" "B" 1).nodeIds = ["A", "B"] ∧
    Graph.empty.add_edge "A" "B" 1 ≠ Graph.empty := by
  exact ⟨rfl, by decide⟩

/-- C3 (amended): `add_edge(from, to, weight)` never fails: it appends any
endpoint that is not yet in the node set (source first, then target) and
records the edge with the given weight. -/
theorem C3_add_edge_total (g : Graph) (u v : NodeId) (w : Val) :
    (g.add_edge u v w).nodeIds =
      (g.nodeIds ++ if u ∈ g.nodeIds then [] else [u]) ++
        (if v ∈ g.nodeIds ∨ v = u then [] else [v]) ∧
    (g.add_edge u v w).get_edge_weight u v = .ok w := by
  exact ⟨Graph.nodeIds_add_edge g u v w, Graph.get_edge_weight_add_edge g u v w⟩

/-- C4: `set_start_node(id)` and `set_goal_node(id)` record the
designation when `id` is in the node set, and fail with the unknown-node
error — returning no modified graph — when it is not. -/
theorem C4_set_start_goal (g : Graph) (nid : NodeId) :
    (nid ∈ g.nodeIds →
      g.set_start_node nid = .ok { g with start_node := some nid } ∧
      g.set_goal_node nid = .ok { g with goal_node := some nid }) ∧
    (nid ∉ g.nodeIds →
      g.set_start_node nid = .error .unknownNode ∧
      g.set_goal_node nid = .error .unknownNode) := by
  exact ⟨fun h => ⟨Graph.set_start_node_ok h, Graph.set_goal_node_ok h⟩,
    fun h => ⟨Graph.set_start_node_error h, Graph.set_goal_node_error h⟩⟩

/-- C4 (witness): on the one-node graph with node A, setting start to A
succeeds and setting start to B fails. -/
theorem C4_set_start_goal_witness :
    ("A" ∈ (Graph.empty.add_node "A" 1).nodeIds ∧
      (Graph.empty.add_node "A" 1).set_start_node "A" =
        .ok ⟨[⟨"A", some 1, []⟩], some "A", none⟩) ∧
    ("B" ∉ (Graph.empty.add_node "A" 1).nodeIds ∧
      (Graph.empty.add_node "A" 1).set_goal_node "B" = .error .unknownNode) := by
  constructor
  · exact ⟨by decide, ((C4_set_start_goal (Graph.empty.add_node "A" 1) "A").1 (by decide)).1⟩
  · exact ⟨by decide, ((C4_set_start_goal (Graph.empty.add_node "A" 1) "B").2 (by decide)).2⟩

/-- C5: deserializing any persisted representation in which the `nodes`
key is missing (or which is not an object at all) fails with the
deserialization error; no graph is returned. -/
theorem C5_missing_nodes_key (j : JVal) (h : jField j "nodes" = none) :
    Graph.load_from_file j = .error .deserialization := by
  unfold Graph.load_from_file
  have ha : Graph.loadArr j "nodes" = .error .deserialization := by
    unfold Graph.loadArr
    rw [h]
  rw [ha, Graph.error_bind]

/-- C5 (witness): the object holding only an `edges` key is rejected. -/
theorem C5_missing_nodes_key_witness :
    jField (.obj [("edges", .arr [])]) "nodes" = none ∧
    Graph.load_from_file (.obj [("edges", .arr [])]) = .error .deserialization :=
  ⟨rfl, C5_missing_nodes_key _ rfl⟩

/-- C6 (counterexample): after `add_edge("A","B",1)` on the empty graph,
`"A"` is present in the node set, yet `get_heuristic("A")` fails (its
attribute dictionary has no `heuristic` key) — so "returns the stored
heuristic whenever the id is present in the node set" is false. -/
theorem C6_counterexample :
    "A" ∈ (Graph.empty.add_edge "A" "B" 1).nodeIds ∧
    (Graph.empty.add_edge "A" "B" 1).get_heuristic "A" = .error .unknownNode := by
  exact ⟨by decide, rfl⟩

/-- C6 (amended): `get_heuristic(id)` returns the heuristic most recently
stored via `add_node` when the node carries a heuristic attribute
(`add_node` writes it, later `add_node` on the same id overwrites it,
`add_node` on other ids and `add_edge` never change it), and fails with
the unknown-node error when `id` is absent from the node set or present
without a heuristic attribute. -/
theorem C6_heuristic_lookup (g : Graph) (nid : NodeId) :
    (∀ h, (g.add_node nid h).get_heuristic nid = .ok h) ∧
    (∀ k h, k ≠ nid → (g.add_node k h).heurOf nid = g.heurOf nid) ∧
    (∀ u v w, (g.add_edge u v w).heurOf nid = g.heurOf nid) ∧
    (∀ v, g.heurOf nid = some v → g.get_heuristic nid = .ok v) ∧
    (g.heurOf nid = none → g.get_heuristic nid = .error .unknownNode) := by
  refine ⟨?_, ?_, ?_, ?_, ?_⟩
  · exact fun h => Graph.get_heuristic_add_node_self g nid h
  · exact fun k h hk => Graph.heurOf_add_node_ne (Ne.symm hk) g h
  · exact fun u v w => Graph.heurOf_add_edge g u v w nid
  · exact fun v hv => Graph.get_heuristic_of_heurOf_some hv
  · exact fun hn => Graph.get_heuristic_of_heurOf_none hn

/-- C6 (witness): overwrite wins, other operations leave the stored value
alone, an absent id fails, a stored value is returned. -/
theorem C6_heuristic_lookup_witness :
    ((Graph.empty.add_node "A" 7).add_node "A" 9).get_heuristic "A" = .ok 9 ∧
    ((Graph.empty.add_node "A" 7).add_node "B" 3).heurOf "A" =
      (Graph.empty.add_node "A" 7).heurOf "A" ∧
    (Graph.empty.heurOf "Z" = none ∧
      Graph.empty.get_heuristic "Z" = .error .unknownNode) ∧
    ((Graph.empty.add_node "A" 7).heurOf "A" = some 7 ∧
      (Graph.empty.add_node "A" 7).get_heuristic "A" = .ok 7) := by
  refine ⟨?_, ?_, ⟨rfl, ?_⟩, ⟨rfl, ?_⟩⟩
  · exact (C6_heuristic_lookup (Graph.empty.add_node "A" 7) "A").1 9
  · exact (C6_heuristic_lookup (Graph.empty.add_node "A" 7) "A").2.1 "B" 3 (by decide)
  · exact (C6_heuristic_lookup Graph.empty "Z").2.2.2.2 rfl
  · exact (C6_heuristic_lookup (Graph.empty.add_node "A" 7) "A").2.2.2.1 7 rfl

/-- C7 (counterexample): `"A"` has no outgoing edges in the empty graph,
yet `get_neighbors("A")` does not return the empty sequence — `networkx`
raises because the node is not in the digraph. -/
theorem C7_counterexample :
    Graph.empty.get_neighbors "A" = .error .unknownNode ∧
    Graph.empty.get_neighbors "A" ≠ .ok [] := by
  exact ⟨rfl, fun hc => Except.noConfusion hc⟩

/-- C7 (amended): for an id in the node set, `get_neighbors` returns the
successor sequence — containing exactly the targets of existing outgoing
edges, in edge insertion order: a new edge appends its target, an
overwritten edge keeps the order — and the empty sequence when there are
no outgoing edges; for an id outside the node set the query fails. -/
theorem C7_neighbors (g : Graph) (nid : NodeId) :
    (nid ∉ g.nodeIds → g.get_neighbors nid = .error .unknownNode) ∧
    (nid ∈ g.nodeIds →
      ∃ ns, g.get_neighbors nid = .ok ns ∧ ∀ v, v ∈ ns ↔ g.hasEdge nid v) ∧
    (∀ v w ns, g.get_neighbors nid = .ok ns →
      (g.add_edge nid v w).get_neighbors nid =
        .ok (if v ∈ ns then ns else ns ++ [v])) := by
  refine ⟨Graph.get_neighbors_error_of_not_mem, ?_, ?_⟩
  · intro hmem
    obtain ⟨e, hfe, hok⟩ := Graph.get_neighbors_ok_of_mem hmem
    exact ⟨_, hok, Graph.mem_get_neighbors_iff hok⟩
  · exact fun v w ns hok => Graph.get_neighbors_add_edge_self v w hok

/-- C7 (witness): missing node fails; a fresh edge target is appended; a
registered node's successor list characterizes its outgoing edges. -/
theorem C7_neighbors_witness :
    Graph.empty.get_neighbors "Z" = .error .unknownNode ∧
    ((Graph.empty.add_node "A" 0).add_edge "A" "B" 2).get_neighbors "A" = .ok ["B"] ∧
    (∃ ns, (Graph.empty.add_node "A" 0).get_neighbors "A" = .ok ns ∧
      ∀ v, v ∈ ns ↔ (Graph.empty.add_node "A" 0).hasEdge "A" v) := by
  refine ⟨?_, ?_, ?_⟩
  · exact (C7_neighbors Graph.empty "Z").1 (by decide)
  · have h := (C7_neighbors (Graph.empty.add_node "A" 0) "A").2.2 "B" 2 [] rfl
    simpa using h
  · exact (C7_neighbors (Graph.empty.add_node "A" 0) "A").2.1 (by decide)

/-- C8: on a well-formed graph, after `add_edge(u,v,w1)` followed by
`add_edge(u,v,w2)` there is a single edge `u → v`: `get_edge_weight`
returns `w2`, and the successor sequence of `u` lists `v` exactly once
(and holds no duplicate at all). -/
theorem C8_edge_overwrite (g : Graph) (u v : NodeId) (w1 w2 : Val)
    (hwf : WF g) :
    ((g.add_edge u v w1).add_edge u v w2).get_edge_weight u v = .ok w2 ∧
    ∃ ns, ((g.add_edge u v w1).add_edge u v w2).get_neighbors u = .ok ns ∧
      ns.count v = 1 ∧ ns.Nodup := by
  refine ⟨Graph.get_edge_weight_add_edge _ u v w2, ?_⟩
  have hwf1 : WF (g.add_edge u v w1) := Graph.wf_add_edge u v w1 hwf
  have hmem : u ∈ (g.add_edge u v w1).nodeIds := Graph.mem_nodeIds_add_edge_fst g u v w1
  obtain ⟨e, hfe, hok⟩ := Graph.get_neighbors_ok_of_mem hmem
  have hnodup : (e.succ.map (·.1)).Nodup := hwf1.2 e (Graph.findE_mem hfe)
  have hv : v ∈ e.succ.map (·.1) :=
    (Graph.mem_get_neighbors_iff hok v).mpr ⟨w1, Graph.get_edge_weight_add_edge g u v w1⟩
  have h2 := Graph.get_neighbors_add_edge_self v w2 hok
  rw [if_pos hv] at h2
  exact ⟨e.succ.map (·.1), h2, List.count_eq_one_of_mem hnodup hv, hnodup⟩

/-- C8 (witness): two writes to the edge A→B on the empty graph leave one
edge with the second weight. -/
theorem C8_edge_overwrite_witness :
    WF Graph.empty ∧
    ((Graph.empty.add_edge "A" "B" 1).add_edge "A" "B" 5).get_edge_weight "A" "B" = .ok 5 ∧
    ∃ ns, ((Graph.empty.add_edge "A" "B" 1).add_edge "A" "B" 5).get_neighbors "A" = .ok ns ∧
      ns.count "B" = 1 ∧ ns.Nodup := by
  refine ⟨Graph.wf_empty, ?_, ?_⟩
  · exact (C8_edge_overwrite Graph.empty "A" "B" 1 5 Graph.wf_empty).1
  · exact (C8_edge_overwrite Graph.empty "A" "B" 1 5 Graph.wf_empty).2

/-- C9: the designation invariant — a set start/goal always names a node
of the graph — is preserved by `add_node`, `add_edge`, the two setters
and holds for every graph `load_from_file` returns; no operation removes
a node (the node set only grows, the setters keep it unchanged), and the
setters reject any identifier outside the node set. -/
theorem C9_designation_invariant :
    (∀ (g : Graph) (nid : NodeId) (h : Val), Inv g → Inv (g.add_node nid h)) ∧
    (∀ (g : Graph) (u v : NodeId) (w : Val), Inv g → Inv (g.add_edge u v w)) ∧
    (∀ (g g' : Graph) (nid : NodeId), Inv g → g.set_start_node nid = .ok g' → Inv g') ∧
    (∀ (g g' : Graph) (nid : NodeId), Inv g → g.set_goal_node nid = .ok g' → Inv g') ∧
    (∀ (j : JVal) (g : Graph), Graph.load_from_file j = .ok g → Inv g) ∧
    (∀ (g : Graph) (nid : NodeId) (h : Val), g.nodeIds ⊆ (g.add_node nid h).nodeIds) ∧
    (∀ (g : Graph) (u v : NodeId) (w : Val), g.nodeIds ⊆ (g.add_edge u v w).nodeIds) ∧
    (∀ (g g' : Graph) (nid : NodeId), g.set_start_node nid = .ok g' → g'.nodeIds = g.nodeIds) ∧
    (∀ (g g' : Graph) (nid : NodeId), g.set_goal_node nid = .ok g' → g'.nodeIds = g.nodeIds) ∧
    (∀ (g : Graph) (nid : NodeId), nid ∉ g.nodeIds →
      g.set_start_node nid = .error .unknownNode ∧
      g.set_goal_node nid = .error .unknownNode) := by
  refine ⟨?_, ?_, ?_, ?_, ?_, ?_, ?_, ?_, ?_, ?_⟩
  · exact fun g nid h hinv => Graph.inv_add_node nid h hinv
  · exact fun g u v w hinv => Graph.inv_add_edge u v w hinv
  · exact fun g g' nid hinv h => Graph.inv_set_start hinv h
  · exact fun g g' nid hinv h => Graph.inv_set_goal hinv h
  · exact fun j g h => Graph.load_from_file_inv h
  · exact fun g nid h => Graph.nodeIds_subset_add_node g nid h
  · exact fun g u v w => Graph.nodeIds_subset_add_edge g u v w
  · intro g g' nid h
    obtain ⟨_, hg⟩ := Graph.set_start_node_ok_inv h
    subst hg
    rfl
  · intro g g' nid h
    obtain ⟨_, hg⟩ := Graph.set_goal_node_ok_inv h
    subst hg
    rfl
  · exact fun g nid h => ⟨Graph.set_start_node_error h, Graph.set_goal_node_error h⟩

/-- C9 (witness): the invariant flows through a concrete build, a load of
the empty representation, and a rejected setter call. -/
theorem C9_designation_invariant_witness :
    Inv (Graph.empty.add_node "A" 3) ∧
    Inv ⟨[⟨"A", some 2, []⟩], some "A", none⟩ ∧
    Inv Graph.empty ∧
    (Graph.empty.set_start_node "X" = .error .unknownNode ∧
      Graph.empty.set_goal_node "X" = .error .unknownNode) := by
  have invE : Inv Graph.empty := ⟨fun s hs => (nomatch hs), fun t ht => (nomatch ht)⟩
  refine ⟨?_, ?_, ?_, ?_⟩
  · exact (C9_designation_invariant).1 Graph.empty "A" 3 invE
  · have h0 : (Graph.empty.add_node "A" 2).set_start_node "A" =
        .ok ⟨[⟨"A", some 2, []⟩], some "A", none⟩ := rfl
    have invA : Inv (Graph.empty.add_node "A" 2) :=
      (C9_designation_invariant).1 Graph.empty "A" 2 invE
    exact (C9_designation_invariant).2.2.1 (Graph.empty.add_node "A" 2) _ "A" invA h0
  · exact (C9_designation_invariant).2.2.2.2.1
      (.obj [("nodes", .arr []), ("edges", .arr [])]) Graph.empty rfl
  · exact (C9_designation_invariant).2.2.2.2.2.2.2.2.2 Graph.empty "X" (by decide)

/-- C10: an endpoint introduced by `add_edge` without prior `add_node` —
whether it is the source or the target of the edge — is silently present
in the node set with no heuristic attribute; `get_heuristic` on it and
`save_to_file` on the whole graph both fail; and serialization succeeds
on every graph all of whose nodes carry a heuristic attribute. -/
theorem C10_unregistered_endpoint :
    (∀ (g : Graph) (u v : NodeId) (w : Val), u ∉ g.nodeIds →
      u ∈ (g.add_edge u v w).nodeIds ∧
      (g.add_edge u v w).heurOf u = none ∧
      (g.add_edge u v w).get_heuristic u = .error .unknownNode ∧
      (g.add_edge u v w).serialize = .error .unknownNode) ∧
    (∀ (g : Graph) (u v : NodeId) (w : Val), v ∉ g.nodeIds →
      v ∈ (g.add_edge u v w).nodeIds ∧
      (g.add_edge u v w).heurOf v = none ∧
      (g.add_edge u v w).get_heuristic v = .error .unknownNode ∧
      (g.add_edge u v w).serialize = .error .unknownNode) ∧
    (∀ g : Graph, (∀ e ∈ g.nodes, e.heuristic ≠ none) →
      ∃ j, g.serialize = .ok j) := by
  refine ⟨?_, ?_, ?_⟩
  · intro g u v w hu
    have hmem : u ∈ (g.add_edge u v w).nodeIds := Graph.mem_nodeIds_add_edge_fst g u v w
    have hnone : (g.add_edge u v w).heurOf u = none := by
      rw [Graph.heurOf_add_edge]
      exact Graph.heurOf_none_of_not_mem hu
    exact ⟨hmem, hnone, Graph.get_heuristic_of_heurOf_none hnone,
      Graph.serialize_error_of_phantom hmem hnone⟩
  · intro g u v w hv
    have hmem : v ∈ (g.add_edge u v w).nodeIds := Graph.mem_nodeIds_add_edge_snd g u v w
    have hnone : (g.add_edge u v w).heurOf v = none := by
      rw [Graph.heurOf_add_edge]
      exact Graph.heurOf_none_of_not_mem hv
    exact ⟨hmem, hnone, Graph.get_heuristic_of_heurOf_none hnone,
      Graph.serialize_error_of_phantom hmem hnone⟩
  · exact fun g h => Graph.serialize_ok_of_total h

/-- C10 (witness): the phantom source A of `add_edge("A","B",1)` on the
empty graph; the phantom target B of `add_edge("A","B",1)` on the graph
holding only the registered node A; and totality of serialization on a
fully registered graph. -/
theorem C10_unregistered_endpoint_witness :
    ("A" ∉ Graph.empty.nodeIds ∧
      "A" ∈ (Graph.empty.add_edge "A" "B" 1).nodeIds ∧
      (Graph.empty.add_edge "A" "B" 1).heurOf "A" = none ∧
      (Graph.empty.add_edge "A" "B" 1).get_heuristic "A" = .error .unknownNode ∧
      (Graph.empty.add_edge "A" "B" 1).serialize = .error .unknownNode) ∧
    ("B" ∉ (Graph.empty.add_node "A" 2).nodeIds ∧
      "B" ∈ ((Graph.empty.add_node "A" 2).add_edge "A" "B" 1).nodeIds ∧
      ((Graph.empty.add_node "A" 2).add_edge "A" "B" 1).heurOf "B" = none ∧
      ((Graph.empty.add_node "A" 2).add_edge "A" "B" 1).get_heuristic "B" =
        .error .unknownNode ∧
      ((Graph.empty.add_node "A" 2).add_edge "A" "B" 1).serialize =
        .error .unknownNode) ∧
    ∃ j, (Graph.empty.add_node "A" 2).serialize = .ok j := by
  refine ⟨?_, ?_, ?_⟩
  · have h := (C10_unregistered_endpoint).1 Graph.empty "A" "B" 1 (by decide)
    exact ⟨by decide, h.1, h.2.1, h.2.2.1, h.2.2.2⟩
  · have h := (C10_unregistered_endpoint).2.1 (Graph.empty.add_node "A" 2) "A" "B" 1 (by decide)
    exact ⟨by decide, h.1, h.2.1, h.2.2.1, h.2.2.2⟩
  · exact (C10_unregistered_endpoint).2.2 (Graph.empty.add_node "A" 2) (by decide)

end BestFirst
